import Mathlib

/-!
# bmi-backend: the two resource handlers of `main.go`

A shallow embedding of `weightsHandler` and `checklistHandler` (`src/main.go`).

* A request is what the handler reads of `*http.Request`: the verb, the outcome of
  `json.NewDecoder(r.Body).Decode(&x)` and the URL query.
* A response is the status code and the body written to `http.ResponseWriter`.
* The relational store behind the global `db` is explicit state: the two tables
  (in storage order) with their auto-increment counters.  Each handler returns
  the response together with the store after the request.
* `time.Now().Format("2006-01-02")` and the failures of the store are inputs
  (`Env`), fixed per request.

The store is the one the SQL statements of `main.go` are written against.  What
the model assumes of it: a column returns the value that was bound to it (a
text `date` column; keys compared as exact strings), `ORDER BY date` is the
order of the date strings with ties in storage order, the integer key `id` is
compared with a text parameter as numbers, a statement that fails leaves the
tables as they were, and the update path of the upsert does not consume a
generated id.
-/

namespace Bmi

/-! ## Entity model (`main.go` lines 16-27) -/

/-- A Go `float64`, carried as its bit pattern.  The handlers never compute
with it: it is decoded, bound to a statement, scanned and encoded. -/
structure Float64 where
  bits : Nat
  deriving DecidableEq, Repr

/-- Go `type Weight struct`. -/
structure Weight where
  ID : Int
  Date : String
  Value : Float64
  deriving DecidableEq, Repr

/-- Go `type Checklist struct`. -/
structure Checklist where
  ID : Int
  Date : String
  Item : String
  Checked : Bool
  deriving DecidableEq, Repr

/-! ## Go values the handlers build -/

/-- A Go slice value: `none` is the nil slice (`var list []T`), `some l` a
non-nil slice holding `l`. -/
abbrev GoSlice (α : Type) := Option (List α)

/-- Go `append(list, x)`: appending to the nil slice allocates. -/
def GoSlice.append {α : Type} : GoSlice α → α → GoSlice α
  | none, a => some [a]
  | some l, a => some (l ++ [a])

/-- What a handler wrote as response body. -/
inductive Body (α : Type) where
  /-- Nothing was written. -/
  | empty
  /-- The plain text of `http.Error(w, msg, code)`. -/
  | text (msg : String)
  /-- The JSON literal `null`. -/
  | null
  /-- A JSON array of entities. -/
  | list (l : List α)
  /-- The JSON object of one entity. -/
  | entity (a : α)
  /-- The JSON object of `map[string]string{"message": m}`. -/
  | message (m : String)
  deriving DecidableEq, Repr

/-- The encoding `json.NewEncoder(w).Encode(list)` of a slice: `encoding/json`
writes a nil slice as `null` and a non-nil slice as an array. -/
def encodeSlice {α : Type} : GoSlice α → Body α
  | none => Body.null
  | some l => Body.list l

/-- Status code and body of a response.  A handler that never calls
`WriteHeader` answers 200. -/
structure Response (α : Type) where
  status : Nat
  body : Body α
  deriving DecidableEq, Repr

/-- The part of `*http.Request` a handler reads. -/
structure Request (α : Type) where
  /-- The verb `r.Method`. -/
  method : String
  /-- The outcome of `json.NewDecoder(r.Body).Decode(&x)`: the decoded struct or
  the error text. -/
  body : Except String α
  /-- The pairs of `r.URL.Query()`, in order. -/
  query : List (String × String)

/-- Go `r.URL.Query().Get(key)`: the first value of the key, the empty string
when the key is absent. -/
def queryGet : List (String × String) → String → String
  | [], _ => ""
  | (k, v) :: rest, key => if k = key then v else queryGet rest key

/-! ## The store -/

/-- A failure of the store during one request. -/
inductive Fault where
  /-- The call `db.Query` or `db.Exec` returns this error. -/
  | call (e : String)
  /-- The call `rows.Scan` on row number `i` (from 0) returns this error. -/
  | scan (i : Nat) (e : String)
  /-- The call `rows.Next` reports `false` instead of delivering row number `i`;
  the error is only visible through `rows.Err`. -/
  | next (i : Nat) (e : String)
  deriving DecidableEq, Repr

/-- The inputs of a request that are not in the request: the clock and the
failure of the store, if any. -/
structure Env where
  /-- The value of `time.Now().Format("2006-01-02")`. -/
  today : String
  fault : Option Fault

/-- The error of `db.Query` or `db.Exec`, if the call fails. -/
def callErr : Option Fault → Option String
  | some (Fault.call e) => some e
  | _ => none

/-- Modelled from the spec: the schema is not in the repository; the spec gives
`weights(id PK autoincrement, date, value)` and
`meal_checklist(id PK autoincrement, date, item, checked)` with a unique
constraint on (date, item).  A table is the list of its rows in storage order,
a column keeps the value bound to it, and each table has the counter its next
generated id is taken from. -/
structure DB where
  weights : List Weight
  weightsNext : Int
  checklist : List Checklist
  checklistNext : Int
  deriving DecidableEq, Repr

/-- The order of `ORDER BY date` on two rows. -/
def dateLE (a b : Weight) : Prop := a.Date ≤ b.Date

instance : DecidableRel dateLE := fun a b => inferInstanceAs (Decidable (a.Date ≤ b.Date))

instance : IsTotal Weight dateLE := ⟨fun a b => le_total a.Date b.Date⟩

instance : IsTrans Weight dateLE := ⟨fun _ _ _ h₁ h₂ => le_trans h₁ h₂⟩

/-- The result set of a query as the loop `for rows.Next() { rows.Scan(..) }`
sees it: one entry per delivered row, the scanned row or the error of `Scan`. -/
abbrev Cursor (α : Type) := List (Except String α)

/-- The cursor over the selected rows under a fault. -/
def openCursor {α : Type} (fault : Option Fault) (rows : List α) : Cursor α :=
  match fault with
  | some (Fault.scan i e) =>
      (rows.take i).map Except.ok ++ (if i < rows.length then [Except.error e] else [])
  | some (Fault.next i _) => (rows.take i).map Except.ok
  | _ => rows.map Except.ok

/-- The statement `SELECT id, date, value FROM weights ORDER BY date`. -/
def DB.queryWeights (db : DB) (fault : Option Fault) : Except String (Cursor Weight) :=
  match callErr fault with
  | some e => Except.error e
  | none => Except.ok (openCursor fault (db.weights.insertionSort dateLE))

/-- The statement `INSERT INTO weights (date, value) VALUES (?, ?)`.  The first
component is `res.LastInsertId()`, the id generated for the inserted row;
`int(id)` keeps it, `int` being 64 bits wide. -/
def DB.insertWeight (db : DB) (fault : Option Fault) (date : String) (value : Float64) :
    Except String (Int × DB) :=
  match callErr fault with
  | some e => Except.error e
  | none =>
      Except.ok (db.weightsNext,
        { db with
          weights := db.weights ++ [⟨db.weightsNext, date, value⟩]
          weightsNext := db.weightsNext + 1 })

/-- A decimal digit character. -/
def isDigitChar (c : Char) : Bool := 48 ≤ c.toNat && c.toNat ≤ 57

/-- A blank of a numeric text: space, tab, line feed, vertical tab, form feed or
carriage return. -/
def isSpace (c : Char) : Bool := c.toNat = 32 || (9 ≤ c.toNat && c.toNat ≤ 13)

/-- The number whose decimal digits are `cs`, continuing from `acc`; `none` when
a character is not a digit. -/
def parseDigits : List Char → Nat → Option Nat
  | [], acc => some acc
  | c :: cs, acc => if isDigitChar c then parseDigits cs (10 * acc + (c.toNat - 48)) else none

/-- The integer a text is the plain decimal numeral of: one or more digits, with
an optional minus sign in front. -/
def parseId (s : String) : Option Int :=
  match s.toList with
  | [] => none
  | c :: cs =>
      if c = '-' then
        if cs = [] then none else (parseDigits cs 0).map (fun n => -(n : Int))
      else (parseDigits (c :: cs) 0).map (fun n => (n : Int))

/-- The digits at the front of a text: the number read so far continued by
them, how many were read on top of `k`, and the rest of the text. -/
def readDigits : List Char → Nat → Nat → Nat × Nat × List Char
  | [], acc, k => (acc, k, [])
  | c :: cs, acc, k =>
      if isDigitChar c then readDigits cs (10 * acc + (c.toNat - 48)) (k + 1)
      else (acc, k, c :: cs)

/-- An optional sign at the front of a text: whether it is a minus, and the rest. -/
def readSign : List Char → Bool × List Char
  | [] => (false, [])
  | c :: cs =>
      if c = '-' then (true, cs) else if c = '+' then (false, cs) else (false, c :: cs)

/-- An optional exponent part at the front of a text: its value and the rest;
`none` when the exponent mark is followed by no digit. -/
def readExponent : List Char → Option (Int × List Char)
  | [] => some (0, [])
  | c :: cs =>
      if c = 'e' ∨ c = 'E' then
        if (readDigits (readSign cs).2 0 0).2.1 = 0 then none
        else
          some (if (readSign cs).1 then -((readDigits (readSign cs).2 0 0).1 : Int)
                else ((readDigits (readSign cs).2 0 0).1 : Int),
            (readDigits (readSign cs).2 0 0).2.2)
      else some (0, c :: cs)

/-- A decimal number: `mant * 10 ^ scale`, negated when `neg`. -/
structure Decimal where
  neg : Bool
  mant : Nat
  scale : Int
  deriving DecidableEq, Repr

/-- The fraction part after the integer digits `i`: the mantissa with the
fraction digits, how many there are, and the rest. -/
def readFraction (i : Nat) : List Char → Nat × Nat × List Char
  | [] => (i, 0, [])
  | c :: cs => if c = '.' then readDigits cs i 0 else (i, 0, c :: cs)

/-- The number a text reads as: blanks, an optional sign, digits with an
optional fraction, an optional exponent, blanks; `none` for any other text. -/
def readNumber (s : String) : Option Decimal :=
  let signed := readSign (s.toList.dropWhile isSpace)
  let int := readDigits signed.2 0 0
  let frac := readFraction int.1 int.2.2
  if int.2.1 + frac.2.1 = 0 then none
  else
    match readExponent frac.2.2 with
    | none => none
    | some (e, rest) =>
        if rest.all isSpace then some ⟨signed.1, frac.1, e - frac.2.1⟩ else none

/-- Whether a decimal number equals an integer. -/
def Decimal.eqInt (d : Decimal) (id : Int) : Bool :=
  if 0 ≤ d.scale then
    decide (id =
      (if d.neg then -(d.mant : Int) else d.mant) * ((10 ^ d.scale.toNat : Nat) : Int))
  else
    decide (id * ((10 ^ (-d.scale).toNat : Nat) : Int) =
      (if d.neg then -(d.mant : Int) else d.mant))

/-- Modelled from the spec: the comparison `id = ?` of the integer key with the
text parameter of `DELETE /weights?id=<int>`.  The store compares numbers: the
parameter selects the id equal to the number it reads as, and a text that does
not read as a number selects no row.  The reading is exact on the plain
numerals of `parseId`; on other texts it follows the usual decimal syntax and
leaves the rounding of very large numbers aside. -/
def matchesId (param : String) (id : Int) : Bool :=
  match readNumber param with
  | some d => d.eqInt id
  | none => false

/-- The statement `DELETE FROM weights WHERE id = ?`. -/
def DB.deleteWeight (db : DB) (fault : Option Fault) (id : String) : Except String DB :=
  match callErr fault with
  | some e => Except.error e
  | none => Except.ok { db with weights := db.weights.filter (fun r => !matchesId id r.ID) }

/-- The statement `SELECT id, date, item, checked FROM meal_checklist WHERE date = ?`. -/
def DB.queryChecklist (db : DB) (fault : Option Fault) (date : String) :
    Except String (Cursor Checklist) :=
  match callErr fault with
  | some e => Except.error e
  | none => Except.ok (openCursor fault (db.checklist.filter (fun r => r.Date = date)))

/-- The key of the unique constraint on `meal_checklist`. -/
def sameKey (date item : String) (r : Checklist) : Bool := r.Date = date && r.Item = item

/-- The statement `INSERT INTO meal_checklist (date, item, checked) VALUES (?, ?, ?)
ON DUPLICATE KEY UPDATE checked = VALUES(checked)`. -/
def DB.upsertChecklist (db : DB) (fault : Option Fault) (date item : String) (checked : Bool) :
    Except String DB :=
  match callErr fault with
  | some e => Except.error e
  | none =>
      if db.checklist.any (sameKey date item) then
        Except.ok { db with
          checklist := db.checklist.map
            (fun r => if sameKey date item r then { r with Checked := checked } else r) }
      else
        Except.ok { db with
          checklist := db.checklist ++ [⟨db.checklistNext, date, item, checked⟩]
          checklistNext := db.checklistNext + 1 }

/-- The statement `DELETE FROM meal_checklist WHERE date = ? AND item = ?`. -/
def DB.deleteChecklist (db : DB) (fault : Option Fault) (date item : String) :
    Except String DB :=
  match callErr fault with
  | some e => Except.error e
  | none => Except.ok { db with checklist := db.checklist.filter (fun r => !sameKey date item r) }

/-! ## The handlers -/

/-- The loop `for rows.Next() { if err := rows.Scan(..); err != nil { .. return }; list = append(list, x) }`
started with the slice `acc`. -/
def scanRows {α : Type} : Cursor α → GoSlice α → Except String (GoSlice α)
  | [], acc => Except.ok acc
  | Except.error e :: _, _ => Except.error e
  | Except.ok a :: rest, acc => scanRows rest (acc.append a)

/-- Go `func weightsHandler` (`main.go` lines 73-136). -/
def weightsHandler (env : Env) (db : DB) (r : Request Weight) : Response Weight × DB :=
  if r.method = "OPTIONS" then (⟨200, Body.empty⟩, db)
  else if r.method = "GET" then
    match db.queryWeights env.fault with
    | Except.error e => (⟨500, Body.text e⟩, db)
    | Except.ok rows =>
        match scanRows rows none with
        | Except.error e => (⟨500, Body.text e⟩, db)
        | Except.ok list => (⟨200, encodeSlice list⟩, db)
  else if r.method = "POST" then
    match r.body with
    | Except.error e => (⟨400, Body.text e⟩, db)
    | Except.ok wt =>
        let wt := if wt.Date = "" then { wt with Date := env.today } else wt
        match db.insertWeight env.fault wt.Date wt.Value with
        | Except.error e => (⟨500, Body.text e⟩, db)
        | Except.ok (id, db') => (⟨201, Body.entity { wt with ID := id }⟩, db')
  else if r.method = "DELETE" then
    let id := queryGet r.query "id"
    if id = "" then (⟨400, Body.text "id is required"⟩, db)
    else
      match db.deleteWeight env.fault id with
      | Except.error e => (⟨500, Body.text e⟩, db)
      | Except.ok db' => (⟨200, Body.message "Data deleted"⟩, db')
  else (⟨200, Body.empty⟩, db)

/-- Go `func checklistHandler` (`main.go` lines 139-204). -/
def checklistHandler (env : Env) (db : DB) (r : Request Checklist) : Response Checklist × DB :=
  if r.method = "OPTIONS" then (⟨200, Body.empty⟩, db)
  else
    let today := env.today
    if r.method = "GET" then
      match db.queryChecklist env.fault today with
      | Except.error e => (⟨500, Body.text e⟩, db)
      | Except.ok rows =>
          match scanRows rows none with
          | Except.error e => (⟨500, Body.text e⟩, db)
          | Except.ok list => (⟨200, encodeSlice list⟩, db)
    else if r.method = "POST" then
      match r.body with
      | Except.error e => (⟨400, Body.text e⟩, db)
      | Except.ok c =>
          let c := { c with Date := today }
          match db.upsertChecklist env.fault c.Date c.Item c.Checked with
          | Except.error e => (⟨500, Body.text e⟩, db)
          | Except.ok db' => (⟨201, Body.entity c⟩, db')
    else if r.method = "DELETE" then
      let item := queryGet r.query "item"
      if item = "" then (⟨400, Body.text "item is required"⟩, db)
      else
        match db.deleteChecklist env.fault today item with
        | Except.error e => (⟨500, Body.text e⟩, db)
        | Except.ok db' => (⟨200, Body.message "deleted"⟩, db')
    else (⟨200, Body.empty⟩, db)

/-! ## Specification vocabulary -/

/-- The slice the scanning loop builds from the nil slice when it is delivered
the rows `l`: nil when there is none. -/
def sliceOf {α : Type} : List α → GoSlice α
  | [] => none
  | a :: l => some (a :: l)

/-- The entities of a response body that is a JSON array. -/
def Body.rows {α : Type} : Body α → List α
  | Body.list l => l
  | _ => []

/-- The error with which the store fails a query whose result set has `n`
rows, if it does: the error `db.Query` returns, the error `rows.Scan` returns
on a row that exists, or the error that makes `rows.Next` report false before a
row that exists. -/
def storeErr (fault : Option Fault) (n : Nat) : Option String :=
  match fault with
  | some (Fault.call e) => some e
  | some (Fault.scan i e) => if i < n then some e else none
  | some (Fault.next i e) => if i < n then some e else none
  | none => none

/-- The response of a GET whose query selects `rows`, in closed form. -/
def getResponse {α : Type} (fault : Option Fault) (rows : List α) : Response α :=
  match fault with
  | some (Fault.call e) => ⟨500, Body.text e⟩
  | some (Fault.scan i e) =>
      if i < rows.length then ⟨500, Body.text e⟩ else ⟨200, encodeSlice (sliceOf rows)⟩
  | some (Fault.next i _) => ⟨200, encodeSlice (sliceOf (rows.take i))⟩
  | none => ⟨200, encodeSlice (sliceOf rows)⟩

/-- The store fails a /weights request with `e`: during the query of a GET or
the reading of its rows, or in the statement of a POST whose body decoded, or
in the statement of a DELETE whose id parameter is not empty. -/
def WeightsStoreFails (env : Env) (db : DB) (r : Request Weight) (e : String) : Prop :=
  (r.method = "GET" ∧ storeErr env.fault db.weights.length = some e) ∨
  (r.method = "POST" ∧ (∃ wt, r.body = Except.ok wt) ∧ callErr env.fault = some e) ∨
  (r.method = "DELETE" ∧ queryGet r.query "id" ≠ "" ∧ callErr env.fault = some e)

/-- The store fails a /checklist request with `e`: during the query of a GET or
the reading of its rows, or in the statement of a POST whose body decoded, or
in the statement of a DELETE whose item parameter is not empty. -/
def ChecklistStoreFails (env : Env) (db : DB) (r : Request Checklist) (e : String) : Prop :=
  (r.method = "GET" ∧
    storeErr env.fault (db.checklist.filter (fun c => c.Date = env.today)).length = some e) ∨
  (r.method = "POST" ∧ (∃ c, r.body = Except.ok c) ∧ callErr env.fault = some e) ∨
  (r.method = "DELETE" ∧ queryGet r.query "item" ≠ "" ∧ callErr env.fault = some e)

/-- The update of `ON DUPLICATE KEY UPDATE checked = VALUES(checked)` on one row. -/
def setChecked (d i : String) (c : Bool) (x : Checklist) : Checklist :=
  if sameKey d i x then { x with Checked := c } else x

/-- The table `meal_checklist` after the upsert of (d, i, c), `next` being the
id the table generates next. -/
def upsertRows (rows : List Checklist) (next : Int) (d i : String) (c : Bool) :
    List Checklist :=
  if rows.any (sameKey d i) then rows.map (setChecked d i c) else rows ++ [⟨next, d, i, c⟩]

/-- The (date, item) uniqueness constraint of `meal_checklist`. -/
def DB.UniqueKeys (db : DB) : Prop := (db.checklist.map (fun x => (x.Date, x.Item))).Nodup

instance (db : DB) : Decidable db.UniqueKeys :=
  inferInstanceAs (Decidable (List.Nodup _))

/-- One request to the server, with the clock and store failure it meets. -/
inductive Call where
  | weights (env : Env) (r : Request Weight)
  | checklist (env : Env) (r : Request Checklist)

/-- The store after one request. -/
def serve (db : DB) : Call → DB
  | Call.weights env r => (weightsHandler env db r).2
  | Call.checklist env r => (checklistHandler env db r).2

/-- The store after a sequence of requests. -/
def run (db : DB) (calls : List Call) : DB := calls.foldl serve db

/-- The id of the entity a POST /weights returned, if the request is one and
it returned an entity. -/
def issuedId (db : DB) : Call → Option Int
  | Call.weights env r =>
      if r.method = "POST" then
        match (weightsHandler env db r).1.body with
        | Body.entity e => some e.ID
        | _ => none
      else none
  | Call.checklist _ _ => none

/-- The ids the POST /weights requests of a run returned, from the store `db`. -/
def issuedIds : DB → List Call → List Int
  | _, [] => []
  | db, c :: cs => (issuedId db c).toList ++ issuedIds (serve db c) cs

/-! ## The scanning loop -/

theorem scanRows_ok_some {α : Type} (l acc : List α) :
    scanRows (l.map Except.ok) (some acc) = Except.ok (some (acc ++ l)) := by
  induction l generalizing acc with
  | nil => simp [scanRows]
  | cons a l ih => simp [scanRows, GoSlice.append, ih]

theorem scanRows_ok_none {α : Type} (l : List α) :
    scanRows (l.map Except.ok) none = Except.ok (sliceOf l) := by
  cases l with
  | nil => simp [scanRows, sliceOf]
  | cons a l => simp [scanRows, GoSlice.append, sliceOf, scanRows_ok_some]

theorem scanRows_error {α : Type} (l : List α) (e : String) (acc : GoSlice α) :
    scanRows (l.map Except.ok ++ [Except.error e]) acc = Except.error e := by
  induction l generalizing acc with
  | nil => simp [scanRows]
  | cons a l ih => simp [scanRows, ih]

theorem rows_encodeSlice_sliceOf {α : Type} (l : List α) :
    (encodeSlice (sliceOf l)).rows = l := by
  cases l <;> simp [sliceOf, encodeSlice, Body.rows]

theorem scanRows_openCursor {α : Type} (fault : Option Fault) (rows : List α) :
    scanRows (openCursor fault rows) none =
      match fault with
      | some (Fault.scan i e) =>
          if i < rows.length then Except.error e else Except.ok (sliceOf rows)
      | some (Fault.next i _) => Except.ok (sliceOf (rows.take i))
      | _ => Except.ok (sliceOf rows) := by
  match fault with
  | none => simp [openCursor, scanRows_ok_none]
  | some (Fault.call e) => simp [openCursor, scanRows_ok_none]
  | some (Fault.next i e) =>
      simp only [openCursor]
      exact scanRows_ok_none _
  | some (Fault.scan i e) =>
      by_cases h : i < rows.length
      · simp only [openCursor, h, if_true]
        exact scanRows_error _ _ _
      · simp only [openCursor, h, if_false, List.append_nil,
          List.take_of_length_le (not_lt.mp h)]
        exact scanRows_ok_none _

theorem weightsHandler_get (env : Env) (db : DB) (r : Request Weight) (hm : r.method = "GET") :
    weightsHandler env db r =
      (getResponse env.fault (db.weights.insertionSort dateLE), db) := by
  simp only [weightsHandler, hm, DB.queryWeights]
  match hf : env.fault with
  | none => simp [callErr, scanRows_openCursor, getResponse]
  | some (Fault.call e) => simp [callErr, getResponse]
  | some (Fault.next i e) => simp [callErr, scanRows_openCursor, getResponse]
  | some (Fault.scan i e) =>
      simp only [callErr, scanRows_openCursor, getResponse, String.reduceEq, if_false, if_true]
      split_ifs <;> rfl

theorem checklistHandler_get (env : Env) (db : DB) (r : Request Checklist)
    (hm : r.method = "GET") :
    checklistHandler env db r =
      (getResponse env.fault (db.checklist.filter (fun c => c.Date = env.today)), db) := by
  simp only [checklistHandler, hm, DB.queryChecklist]
  match hf : env.fault with
  | none => simp [callErr, scanRows_openCursor, getResponse]
  | some (Fault.call e) => simp [callErr, getResponse]
  | some (Fault.next i e) => simp [callErr, scanRows_openCursor, getResponse]
  | some (Fault.scan i e) =>
      simp only [callErr, scanRows_openCursor, getResponse, String.reduceEq, if_false, if_true]
      split_ifs <;> rfl

/-- The entities in the body of a GET response are among the selected rows. -/
theorem mem_rows_getResponse {α : Type} (fault : Option Fault) (rows : List α) (a : α)
    (h : a ∈ (getResponse fault rows).body.rows) : a ∈ rows := by
  match fault with
  | none => simpa [getResponse, rows_encodeSlice_sliceOf] using h
  | some (Fault.call e) => simp [getResponse, Body.rows] at h
  | some (Fault.next i e) =>
      simp only [getResponse, rows_encodeSlice_sliceOf] at h
      exact List.mem_of_mem_take h
  | some (Fault.scan i e) =>
      by_cases hi : i < rows.length
      · simp [getResponse, hi, Body.rows] at h
      · simpa [getResponse, hi, rows_encodeSlice_sliceOf] using h

/-- C3: every entry of a GET /checklist response is a stored row dated the
current date; when the store does not fail the response is 200 and holds
exactly the stored rows dated the current date, so rows of other days are
absent; the store is left as it was, so those rows are still stored. -/
theorem checklist_get_only_current_date (env : Env) (db : DB) (r : Request Checklist)
    (hm : r.method = "GET") :
    (checklistHandler env db r).2 = db ∧
    (∀ c ∈ (checklistHandler env db r).1.body.rows, c ∈ db.checklist ∧ c.Date = env.today) ∧
    (env.fault = none →
      (checklistHandler env db r).1.status = 200 ∧
      (checklistHandler env db r).1.body.rows =
        db.checklist.filter (fun c => c.Date = env.today) ∧
      (∀ c ∈ db.checklist, c.Date = env.today → c ∈ (checklistHandler env db r).1.body.rows) ∧
      (∀ c ∈ db.checklist, c.Date ≠ env.today →
        c ∉ (checklistHandler env db r).1.body.rows)) := by
  rw [checklistHandler_get env db r hm]
  refine ⟨rfl, ?_, ?_⟩
  · intro c hc
    have := mem_rows_getResponse env.fault _ c hc
    simpa using this
  · intro hf
    simp only [hf, getResponse, rows_encodeSlice_sliceOf]
    refine ⟨trivial, trivial, ?_, ?_⟩
    · intro c hc hd
      simp [hc, hd]
    · intro c _ hd
      simp [hd]

theorem checklist_get_only_current_date_witness :
    (checklistHandler ⟨"2024-05-02", none⟩
        ⟨[], 1, [⟨1, "2024-05-01", "egg", true⟩, ⟨2, "2024-05-02", "rice", false⟩], 3⟩
        ⟨"GET", Except.error "EOF", []⟩).1.body.rows = [⟨2, "2024-05-02", "rice", false⟩] :=
  ((checklist_get_only_current_date ⟨"2024-05-02", none⟩
      ⟨[], 1, [⟨1, "2024-05-01", "egg", true⟩, ⟨2, "2024-05-02", "rice", false⟩], 3⟩
      ⟨"GET", Except.error "EOF", []⟩ rfl).2.2 rfl).2.1.trans (by decide)

/-! ## Verbs without a branch -/

/-- C10: for both handlers, a request whose verb is not GET, POST or DELETE
(OPTIONS, PUT, PATCH or any other) is answered 200 with an empty body whatever
its body and query are, and the store after the request is the store before
it; the response does not depend on the store or on its failures. -/
theorem other_verbs_fall_through (env : Env) (db : DB) (method : String)
    (bodyW : Except String Weight) (bodyC : Except String Checklist)
    (query : List (String × String))
    (hget : method ≠ "GET") (hpost : method ≠ "POST") (hdel : method ≠ "DELETE") :
    weightsHandler env db ⟨method, bodyW, query⟩ = (⟨200, Body.empty⟩, db) ∧
    checklistHandler env db ⟨method, bodyC, query⟩ = (⟨200, Body.empty⟩, db) := by
  constructor
  · simp only [weightsHandler, if_neg hget, if_neg hpost, if_neg hdel]
    split_ifs <;> rfl
  · simp only [checklistHandler, if_neg hget, if_neg hpost, if_neg hdel]
    split_ifs <;> rfl

theorem other_verbs_fall_through_witness :
    weightsHandler ⟨"2024-05-01", some (Fault.call "bad connection")⟩
        ⟨[⟨1, "2024-04-30", ⟨7⟩⟩], 2, [], 1⟩
        ⟨"PUT", Except.ok ⟨9, "2024-01-01", ⟨3⟩⟩, [("id", "1")]⟩ =
      (⟨200, Body.empty⟩, ⟨[⟨1, "2024-04-30", ⟨7⟩⟩], 2, [], 1⟩) ∧
    checklistHandler ⟨"2024-05-01", some (Fault.call "bad connection")⟩
        ⟨[⟨1, "2024-04-30", ⟨7⟩⟩], 2, [], 1⟩
        ⟨"PUT", Except.error "EOF", [("id", "1")]⟩ =
      (⟨200, Body.empty⟩, ⟨[⟨1, "2024-04-30", ⟨7⟩⟩], 2, [], 1⟩) :=
  other_verbs_fall_through ⟨"2024-05-01", some (Fault.call "bad connection")⟩
    ⟨[⟨1, "2024-04-30", ⟨7⟩⟩], 2, [], 1⟩ "PUT" (Except.ok ⟨9, "2024-01-01", ⟨3⟩⟩)
    (Except.error "EOF") [("id", "1")] (by decide) (by decide) (by decide)

/-! ## Empty results -/

/-- C7: on a store with no weight row GET /weights answers 200 with the JSON
literal null, and on a store with no row for the current date GET /checklist
does the same: the slice the loop never appended to is nil, and it is not
encoded as the empty array. -/
theorem get_without_rows_writes_null :
    (weightsHandler ⟨"2024-05-01", none⟩ ⟨[], 1, [], 1⟩ ⟨"GET", Except.error "EOF", []⟩).1 =
      ⟨200, Body.null⟩ ∧
    (checklistHandler ⟨"2024-05-01", none⟩ ⟨[], 1, [⟨1, "2024-04-30", "egg", true⟩], 2⟩
        ⟨"GET", Except.error "EOF", []⟩).1 = ⟨200, Body.null⟩ ∧
    (Body.null : Body Weight) ≠ Body.list [] ∧ (Body.null : Body Checklist) ≠ Body.list [] := by
  decide

/-! ## POST /checklist -/

/-- The response and store of `POST /checklist` when the body decodes and
`db.Exec` does not fail. -/
theorem checklistHandler_post (env : Env) (db : DB) (r : Request Checklist) (c : Checklist)
    (hm : r.method = "POST") (hb : r.body = Except.ok c) (hf : callErr env.fault = none) :
    checklistHandler env db r =
      (⟨201, Body.entity ⟨c.ID, env.today, c.Item, c.Checked⟩⟩,
        if db.checklist.any (sameKey env.today c.Item) then
          { db with
            checklist := db.checklist.map
              (fun x => if sameKey env.today c.Item x then { x with Checked := c.Checked } else x) }
        else
          { db with
            checklist := db.checklist ++ [⟨db.checklistNext, env.today, c.Item, c.Checked⟩]
            checklistNext := db.checklistNext + 1 }) := by
  simp only [checklistHandler, hm, hb, DB.upsertChecklist, hf, String.reduceEq, if_false, if_true]
  split_ifs <;> rfl

/-- C5: when the body of POST /checklist decodes and the upsert does not fail,
the response is 201 with the entity of the body dated the current date,
whatever date the body carries; after the request every stored row for
(current date, item) has the checked of the body and there is such a row; the
rows of other keys and the weights table are as before. -/
theorem checklist_post_forces_today (env : Env) (db : DB) (r : Request Checklist)
    (c : Checklist) (hm : r.method = "POST") (hb : r.body = Except.ok c)
    (hf : callErr env.fault = none) :
    (checklistHandler env db r).1 = ⟨201, Body.entity ⟨c.ID, env.today, c.Item, c.Checked⟩⟩ ∧
    (∃ x ∈ (checklistHandler env db r).2.checklist,
      x.Date = env.today ∧ x.Item = c.Item ∧ x.Checked = c.Checked) ∧
    (∀ x ∈ (checklistHandler env db r).2.checklist,
      x.Date = env.today → x.Item = c.Item → x.Checked = c.Checked) ∧
    (checklistHandler env db r).2.checklist.filter (fun x => !sameKey env.today c.Item x) =
      db.checklist.filter (fun x => !sameKey env.today c.Item x) ∧
    (checklistHandler env db r).2.weights = db.weights := by
  rw [checklistHandler_post env db r c hm hb hf]
  refine ⟨rfl, ?_⟩
  by_cases hany : db.checklist.any (sameKey env.today c.Item) = true
  · rw [if_pos hany]
    obtain ⟨y, hy, hk⟩ := List.any_eq_true.mp hany
    have hk' : y.Date = env.today ∧ y.Item = c.Item := by simpa [sameKey] using hk
    refine ⟨⟨{ y with Checked := c.Checked }, ?_, hk'.1, hk'.2, rfl⟩, ?_, ?_, rfl⟩
    · exact List.mem_map.mpr ⟨y, hy, by simp [hk]⟩
    · intro x hx hd hi
      obtain ⟨z, _, rfl⟩ := List.mem_map.mp hx
      by_cases hz : sameKey env.today c.Item z = true
      · simp [hz]
      · rw [if_neg hz] at hd hi
        exact absurd (by simp [sameKey, hd, hi]) hz
    · rw [List.filter_map]
      have : ∀ z ∈ db.checklist,
          ((fun x => !sameKey env.today c.Item x) ∘
            (fun x => if sameKey env.today c.Item x = true then
              { x with Checked := c.Checked } else x)) z =
          (fun x => !sameKey env.today c.Item x) z := by
        intro z _
        by_cases hz : sameKey env.today c.Item z = true
        · have hz' : z.Date = env.today ∧ z.Item = c.Item := by simpa [sameKey] using hz
          simp [hz, sameKey, hz'.1, hz'.2]
        · simp [hz]
      rw [List.filter_congr this]
      induction db.checklist with
      | nil => rfl
      | cons z l ih =>
          by_cases hz : sameKey env.today c.Item z = true
          · simp [List.filter_cons, hz, ih]
          · simp [List.filter_cons, hz, ih]
  · rw [if_neg hany]
    refine ⟨⟨⟨db.checklistNext, env.today, c.Item, c.Checked⟩, by simp, rfl, rfl, rfl⟩,
      ?_, ?_, rfl⟩
    · intro x hx hd hi
      rcases List.mem_append.mp hx with hx | hx
      · exact absurd (List.any_eq_true.mpr ⟨x, hx, by simp [sameKey, hd, hi]⟩) hany
      · simp only [List.mem_singleton] at hx
        rw [hx]
    · simp [List.filter_append, List.filter_cons, sameKey]

theorem checklist_post_forces_today_witness :
    (checklistHandler ⟨"2024-05-02", none⟩ ⟨[], 1, [⟨1, "2024-05-01", "egg", true⟩], 2⟩
        ⟨"POST", Except.ok ⟨0, "1999-12-31", "egg", false⟩, []⟩).1 =
      ⟨201, Body.entity ⟨0, "2024-05-02", "egg", false⟩⟩ :=
  (checklist_post_forces_today ⟨"2024-05-02", none⟩ ⟨[], 1, [⟨1, "2024-05-01", "egg", true⟩], 2⟩
    ⟨"POST", Except.ok ⟨0, "1999-12-31", "egg", false⟩, []⟩ ⟨0, "1999-12-31", "egg", false⟩
    rfl rfl rfl).1

/-- C6: POST /checklist on an empty table whose next generated id is 1, with a
body that carries no id: the stored row has id 1 and the entity in the 201
response has id 0, the id of the body; POST /weights on the same store answers
with the id of the row it inserted. -/
theorem checklist_post_id_not_populated :
    checklistHandler ⟨"2024-05-01", none⟩ ⟨[], 1, [], 1⟩
        ⟨"POST", Except.ok ⟨0, "", "egg", true⟩, []⟩ =
      (⟨201, Body.entity ⟨0, "2024-05-01", "egg", true⟩⟩,
        ⟨[], 1, [⟨1, "2024-05-01", "egg", true⟩], 2⟩) ∧
    weightsHandler ⟨"2024-05-01", none⟩ ⟨[], 1, [], 1⟩
        ⟨"POST", Except.ok ⟨0, "", ⟨7⟩⟩, []⟩ =
      (⟨201, Body.entity ⟨1, "2024-05-01", ⟨7⟩⟩⟩,
        ⟨[⟨1, "2024-05-01", ⟨7⟩⟩], 2, [], 1⟩) := by
  decide

/-! ## Closed forms of the branches -/

theorem weightsHandler_options (env : Env) (db : DB) (r : Request Weight)
    (hm : r.method = "OPTIONS") : weightsHandler env db r = (⟨200, Body.empty⟩, db) := by
  simp [weightsHandler, hm]

theorem checklistHandler_options (env : Env) (db : DB) (r : Request Checklist)
    (hm : r.method = "OPTIONS") : checklistHandler env db r = (⟨200, Body.empty⟩, db) := by
  simp [checklistHandler, hm]

theorem weightsHandler_post_decode (env : Env) (db : DB) (r : Request Weight) (e : String)
    (hm : r.method = "POST") (hb : r.body = Except.error e) :
    weightsHandler env db r = (⟨400, Body.text e⟩, db) := by
  simp [weightsHandler, hm, hb]

theorem weightsHandler_post_fail (env : Env) (db : DB) (r : Request Weight) (wt : Weight)
    (e : String) (hm : r.method = "POST") (hb : r.body = Except.ok wt)
    (hf : callErr env.fault = some e) :
    weightsHandler env db r = (⟨500, Body.text e⟩, db) := by
  simp [weightsHandler, hm, hb, DB.insertWeight, hf]

/-- The response and store of `POST /weights` when the body decodes and
`db.Exec` does not fail. -/
theorem weightsHandler_post (env : Env) (db : DB) (r : Request Weight) (wt : Weight)
    (hm : r.method = "POST") (hb : r.body = Except.ok wt) (hf : callErr env.fault = none) :
    weightsHandler env db r =
      (⟨201, Body.entity
          ⟨db.weightsNext, if wt.Date = "" then env.today else wt.Date, wt.Value⟩⟩,
        { db with
          weights := db.weights ++
            [⟨db.weightsNext, if wt.Date = "" then env.today else wt.Date, wt.Value⟩]
          weightsNext := db.weightsNext + 1 }) := by
  simp only [weightsHandler, hm, hb, DB.insertWeight, hf, String.reduceEq, if_false, if_true]
  split_ifs <;> rfl

theorem weightsHandler_delete_missing (env : Env) (db : DB) (r : Request Weight)
    (hm : r.method = "DELETE") (hq : queryGet r.query "id" = "") :
    weightsHandler env db r = (⟨400, Body.text "id is required"⟩, db) := by
  simp [weightsHandler, hm, hq]

theorem weightsHandler_delete_fail (env : Env) (db : DB) (r : Request Weight) (e : String)
    (hm : r.method = "DELETE") (hq : queryGet r.query "id" ≠ "")
    (hf : callErr env.fault = some e) :
    weightsHandler env db r = (⟨500, Body.text e⟩, db) := by
  simp [weightsHandler, hm, hq, DB.deleteWeight, hf]

theorem weightsHandler_delete (env : Env) (db : DB) (r : Request Weight)
    (hm : r.method = "DELETE") (hq : queryGet r.query "id" ≠ "")
    (hf : callErr env.fault = none) :
    weightsHandler env db r =
      (⟨200, Body.message "Data deleted"⟩,
        { db with
          weights := db.weights.filter (fun w => !matchesId (queryGet r.query "id") w.ID) }) := by
  simp [weightsHandler, hm, hq, DB.deleteWeight, hf]

theorem checklistHandler_post_decode (env : Env) (db : DB) (r : Request Checklist) (e : String)
    (hm : r.method = "POST") (hb : r.body = Except.error e) :
    checklistHandler env db r = (⟨400, Body.text e⟩, db) := by
  simp [checklistHandler, hm, hb]

theorem checklistHandler_post_fail (env : Env) (db : DB) (r : Request Checklist)
    (c : Checklist) (e : String) (hm : r.method = "POST") (hb : r.body = Except.ok c)
    (hf : callErr env.fault = some e) :
    checklistHandler env db r = (⟨500, Body.text e⟩, db) := by
  simp [checklistHandler, hm, hb, DB.upsertChecklist, hf]

theorem checklistHandler_delete_missing (env : Env) (db : DB) (r : Request Checklist)
    (hm : r.method = "DELETE") (hq : queryGet r.query "item" = "") :
    checklistHandler env db r = (⟨400, Body.text "item is required"⟩, db) := by
  simp [checklistHandler, hm, hq]

theorem checklistHandler_delete_fail (env : Env) (db : DB) (r : Request Checklist)
    (e : String) (hm : r.method = "DELETE") (hq : queryGet r.query "item" ≠ "")
    (hf : callErr env.fault = some e) :
    checklistHandler env db r = (⟨500, Body.text e⟩, db) := by
  simp [checklistHandler, hm, hq, DB.deleteChecklist, hf]

theorem checklistHandler_delete (env : Env) (db : DB) (r : Request Checklist)
    (hm : r.method = "DELETE") (hq : queryGet r.query "item" ≠ "")
    (hf : callErr env.fault = none) :
    checklistHandler env db r =
      (⟨200, Body.message "deleted"⟩,
        { db with
          checklist := db.checklist.filter
            (fun x => !sameKey env.today (queryGet r.query "item") x) }) := by
  simp [checklistHandler, hm, hq, DB.deleteChecklist, hf]

theorem queryGet_absent (q : List (String × String)) (key : String)
    (h : ∀ p ∈ q, p.1 ≠ key) : queryGet q key = "" := by
  induction q with
  | nil => rfl
  | cons p q ih =>
      obtain ⟨k, v⟩ := p
      have hk : k ≠ key := h (k, v) (List.mem_cons_self _ _)
      simp only [queryGet, if_neg hk]
      exact ih (fun p hp => h p (List.mem_cons_of_mem _ hp))

/-! ## DELETE /weights -/

theorem readDigits_of_parseDigits (cs : List Char) (acc k v : Nat)
    (h : parseDigits cs acc = some v) : readDigits cs acc k = (v, k + cs.length, []) := by
  induction cs generalizing acc k with
  | nil =>
      simp only [parseDigits, Option.some.injEq] at h
      simp [readDigits, h]
  | cons c cs ih =>
      by_cases hc : isDigitChar c = true
      · simp only [parseDigits, hc, if_true] at h
        simp only [readDigits, hc, if_true, ih _ (k + 1) h, List.length_cons]
        congr 2
        omega
      · simp [parseDigits, hc] at h

theorem isDigitChar_of_parseDigits (c : Char) (cs : List Char) (acc v : Nat)
    (h : parseDigits (c :: cs) acc = some v) : isDigitChar c = true := by
  by_cases hc : isDigitChar c = true
  · exact hc
  · simp [parseDigits, hc] at h

theorem readNumber_of_digits (s : String) (neg : Bool) (cs : List Char) (v : Nat)
    (hs : readSign (s.toList.dropWhile isSpace) = (neg, cs)) (hne : cs ≠ [])
    (hv : parseDigits cs 0 = some v) : readNumber s = some ⟨neg, v, 0⟩ := by
  have hlen : cs.length ≠ 0 := by
    intro h0
    exact hne (List.length_eq_zero.mp h0)
  simp only [readNumber, hs, readDigits_of_parseDigits cs 0 0 v hv, readFraction, readExponent]
  simp [hlen]

/-- On a plain decimal numeral the comparison selects exactly the id it denotes. -/
theorem matchesId_of_parseId (s : String) (n id : Int) (h : parseId s = some n) :
    matchesId s id = decide (id = n) := by
  unfold parseId at h
  cases hl : s.toList with
  | nil => rw [hl] at h; cases h
  | cons c cs =>
      rw [hl] at h
      simp only [] at h
      by_cases hc : c = '-'
      · rw [if_pos hc] at h
        by_cases hcs : cs = []
        · rw [if_pos hcs] at h; cases h
        · rw [if_neg hcs] at h
          cases hv : parseDigits cs 0 with
          | none => rw [hv] at h; cases h
          | some v =>
              rw [hv] at h
              simp at h
              have hr : readNumber s = some ⟨true, v, 0⟩ := by
                apply readNumber_of_digits s true cs v _ hcs hv
                rw [hl, hc]
                rfl
              simp [matchesId, hr, Decimal.eqInt, ← h]
      · rw [if_neg hc] at h
        cases hv : parseDigits (c :: cs) 0 with
        | none => rw [hv] at h; cases h
        | some v =>
            rw [hv] at h
            simp at h
            have hd := isDigitChar_of_parseDigits c cs 0 v hv
            have hsp : isSpace c = false := by
              simp only [isDigitChar, Bool.and_eq_true, decide_eq_true_eq] at hd
              simp only [isSpace, Bool.or_eq_false_iff, decide_eq_false_iff_not,
                Bool.and_eq_false_iff]
              omega
            have hplus : c ≠ '+' := by
              rintro rfl
              simp [isDigitChar] at hd
            have hr : readNumber s = some ⟨false, v, 0⟩ := by
              apply readNumber_of_digits s false (c :: cs) v _ (List.cons_ne_nil _ _) hv
              rw [hl]
              simp [List.dropWhile, hsp, readSign, hc, hplus]
            simp [matchesId, hr, Decimal.eqInt, ← h]

theorem parseId_ne_empty (s : String) (n : Int) (h : parseId s = some n) : s ≠ "" := by
  rintro rfl
  simp [parseId] at h

/-- C8: for DELETE /weights when the store does not fail: the status is 400
exactly when the query parameter id is missing or empty, and then the store is
unchanged; otherwise the response is 200 with the message Data deleted, no
table but weights is touched and the rows that remain are rows that were there,
in order; when the parameter is the decimal numeral of an integer n, exactly the
rows with id n are removed, and when no row has id n the store is unchanged. -/
theorem weights_delete_contract (env : Env) (db : DB) (r : Request Weight)
    (hm : r.method = "DELETE") (hf : callErr env.fault = none) :
    ((weightsHandler env db r).1.status = 400 ↔ queryGet r.query "id" = "") ∧
    ((∀ p ∈ r.query, p.1 ≠ "id") → (weightsHandler env db r).1.status = 400) ∧
    (queryGet r.query "id" = "" → (weightsHandler env db r).2 = db) ∧
    (queryGet r.query "id" ≠ "" →
      (weightsHandler env db r).1 = ⟨200, Body.message "Data deleted"⟩ ∧
      (weightsHandler env db r).2.weights.Sublist db.weights ∧
      (weightsHandler env db r).2.weightsNext = db.weightsNext ∧
      (weightsHandler env db r).2.checklist = db.checklist ∧
      (weightsHandler env db r).2.checklistNext = db.checklistNext) ∧
    (∀ n : Int, parseId (queryGet r.query "id") = some n →
      (weightsHandler env db r).1 = ⟨200, Body.message "Data deleted"⟩ ∧
      (weightsHandler env db r).2 =
        { db with weights := db.weights.filter (fun w => decide (w.ID ≠ n)) } ∧
      ((∀ w ∈ db.weights, w.ID ≠ n) → (weightsHandler env db r).2 = db)) := by
  by_cases hq : queryGet r.query "id" = ""
  · rw [weightsHandler_delete_missing env db r hm hq]
    refine ⟨⟨fun _ => hq, fun _ => rfl⟩, fun _ => rfl, fun _ => rfl, fun h => absurd hq h, ?_⟩
    intro n hn
    exact absurd hq (parseId_ne_empty _ n hn)
  · rw [weightsHandler_delete env db r hm hq hf]
    refine ⟨⟨fun h => absurd h (by simp), fun h => absurd h hq⟩,
      fun h => absurd (queryGet_absent _ _ h) hq, fun h => absurd h hq,
      fun _ => ⟨rfl, List.filter_sublist _, rfl, rfl, rfl⟩, ?_⟩
    intro n hn
    have hfilter : db.weights.filter (fun w => !matchesId (queryGet r.query "id") w.ID) =
        db.weights.filter (fun w => decide (w.ID ≠ n)) := by
      apply List.filter_congr
      intro w _
      rw [matchesId_of_parseId _ n w.ID hn]
      by_cases hw : w.ID = n
      · simp [hw]
      · simp [hw]
    refine ⟨rfl, by rw [hfilter], ?_⟩
    intro hnone
    have hself : db.weights.filter (fun w => decide (w.ID ≠ n)) = db.weights :=
      List.filter_eq_self.mpr (fun w hw => by simpa using hnone w hw)
    rw [hfilter, hself]

theorem weights_delete_contract_witness :
    (weightsHandler ⟨"2024-05-01", none⟩
        ⟨[⟨1, "2024-02-01", ⟨5⟩⟩, ⟨2, "2024-01-01", ⟨6⟩⟩], 3, [], 1⟩
        ⟨"DELETE", Except.error "EOF", [("id", "2")]⟩).2 =
      ⟨[⟨1, "2024-02-01", ⟨5⟩⟩], 3, [], 1⟩ :=
  ((weights_delete_contract ⟨"2024-05-01", none⟩
      ⟨[⟨1, "2024-02-01", ⟨5⟩⟩, ⟨2, "2024-01-01", ⟨6⟩⟩], 3, [], 1⟩
      ⟨"DELETE", Except.error "EOF", [("id", "2")]⟩ rfl rfl).2.2.2.2 2 (by decide)).2.1.trans
    (by decide)

/-! ## Verbs without a branch, closed form -/

theorem weightsHandler_other (env : Env) (db : DB) (r : Request Weight)
    (hget : r.method ≠ "GET") (hpost : r.method ≠ "POST") (hdel : r.method ≠ "DELETE") :
    weightsHandler env db r = (⟨200, Body.empty⟩, db) := by
  simp only [weightsHandler, if_neg hget, if_neg hpost, if_neg hdel]
  split_ifs <;> rfl

theorem checklistHandler_other (env : Env) (db : DB) (r : Request Checklist)
    (hget : r.method ≠ "GET") (hpost : r.method ≠ "POST") (hdel : r.method ≠ "DELETE") :
    checklistHandler env db r = (⟨200, Body.empty⟩, db) := by
  simp only [checklistHandler, if_neg hget, if_neg hpost, if_neg hdel]
  split_ifs <;> rfl

/-! ## Store failures -/

/-- C9: a store failure while the rows of a GET are read is answered 200, not
500.  GET /weights on a store with one row, when `rows.Next` fails with invalid
connection before the first row: the store fails the request, and the response
is 200 with body null.  GET /checklist on a store with two rows of the day,
when `rows.Next` fails before the second: the response is 200 with an array of
the first row alone.  The handlers read the errors of `db.Query` and
`rows.Scan` and never `rows.Err`. -/
theorem iteration_failure_answered_200 :
    WeightsStoreFails ⟨"2024-05-01", some (Fault.next 0 "invalid connection")⟩
        ⟨[⟨1, "2024-04-30", ⟨7⟩⟩], 2, [], 1⟩ ⟨"GET", Except.error "EOF", []⟩
        "invalid connection" ∧
    weightsHandler ⟨"2024-05-01", some (Fault.next 0 "invalid connection")⟩
        ⟨[⟨1, "2024-04-30", ⟨7⟩⟩], 2, [], 1⟩ ⟨"GET", Except.error "EOF", []⟩ =
      (⟨200, Body.null⟩, ⟨[⟨1, "2024-04-30", ⟨7⟩⟩], 2, [], 1⟩) ∧
    ChecklistStoreFails ⟨"2024-05-01", some (Fault.next 1 "invalid connection")⟩
        ⟨[], 1, [⟨1, "2024-05-01", "egg", true⟩, ⟨2, "2024-05-01", "rice", false⟩], 3⟩
        ⟨"GET", Except.error "EOF", []⟩ "invalid connection" ∧
    checklistHandler ⟨"2024-05-01", some (Fault.next 1 "invalid connection")⟩
        ⟨[], 1, [⟨1, "2024-05-01", "egg", true⟩, ⟨2, "2024-05-01", "rice", false⟩], 3⟩
        ⟨"GET", Except.error "EOF", []⟩ =
      (⟨200, Body.list [⟨1, "2024-05-01", "egg", true⟩]⟩,
        ⟨[], 1, [⟨1, "2024-05-01", "egg", true⟩, ⟨2, "2024-05-01", "rice", false⟩], 3⟩) :=
  ⟨Or.inl ⟨rfl, by decide⟩, by decide, Or.inl ⟨rfl, by decide⟩, by decide⟩

/-! ## The checklist upsert on the table -/

theorem checklistHandler_post_rows (env : Env) (db : DB) (r : Request Checklist)
    (c : Checklist) (hm : r.method = "POST") (hb : r.body = Except.ok c)
    (hf : callErr env.fault = none) :
    (checklistHandler env db r).2.checklist =
      upsertRows db.checklist db.checklistNext env.today c.Item c.Checked := by
  rw [checklistHandler_post env db r c hm hb hf]
  simp only [upsertRows]
  split_ifs <;> rfl

theorem sameKey_iff (d i : String) (x : Checklist) :
    sameKey d i x = true ↔ x.Date = d ∧ x.Item = i := by
  simp [sameKey]

theorem setChecked_key (d i : String) (c : Bool) (x : Checklist) :
    (setChecked d i c x).Date = x.Date ∧ (setChecked d i c x).Item = x.Item := by
  unfold setChecked
  split_ifs <;> exact ⟨rfl, rfl⟩

theorem sameKey_setChecked (d i d' i' : String) (c : Bool) (x : Checklist) :
    sameKey d' i' (setChecked d i c x) = sameKey d' i' x := by
  simp [sameKey, (setChecked_key d i c x).1, (setChecked_key d i c x).2]

theorem setChecked_of_checked (d i : String) (c : Bool) (x : Checklist)
    (h : sameKey d i x = true → x.Checked = c) : setChecked d i c x = x := by
  unfold setChecked
  split_ifs with hk
  · have := h hk
    cases x
    simp_all
  · rfl

theorem filter_sameKey_map_setChecked (d i : String) (c : Bool) (rows : List Checklist) :
    (rows.map (setChecked d i c)).filter (sameKey d i) =
      (rows.filter (sameKey d i)).map (setChecked d i c) := by
  induction rows with
  | nil => rfl
  | cons x l ih =>
      by_cases hx : sameKey d i x = true
      · simp [List.filter_cons, sameKey_setChecked, hx, ih]
      · simp [List.filter_cons, sameKey_setChecked, hx, ih]

theorem filter_sameKey_eq_nil (d i : String) (rows : List Checklist)
    (h : rows.any (sameKey d i) = false) : rows.filter (sameKey d i) = [] := by
  rw [List.filter_eq_nil_iff]
  intro x hx hk
  have : rows.any (sameKey d i) = true := List.any_eq_true.mpr ⟨x, hx, hk⟩
  rw [h] at this
  exact Bool.noConfusion this

/-- After the upsert of (d, i, c) on a table with at most one row for (d, i),
the table has exactly one row for (d, i) and its checked is c. -/
theorem filter_upsertRows (rows : List Checklist) (next : Int) (d i : String) (c : Bool)
    (h : (rows.filter (sameKey d i)).length ≤ 1) :
    ∃ x, (upsertRows rows next d i c).filter (sameKey d i) = [x] ∧
      x.Checked = c ∧ x.Date = d ∧ x.Item = i := by
  unfold upsertRows
  by_cases hany : rows.any (sameKey d i) = true
  · rw [if_pos hany, filter_sameKey_map_setChecked]
    obtain ⟨y, hy, hk⟩ := List.any_eq_true.mp hany
    have hmem : y ∈ rows.filter (sameKey d i) := List.mem_filter.mpr ⟨hy, hk⟩
    match hl : rows.filter (sameKey d i), h, hmem with
    | [z], _, hz =>
        have hzy : y = z := by simpa using hz
        subst hzy
        refine ⟨setChecked d i c y, rfl, ?_, ?_, ?_⟩
        · simp [setChecked, hk]
        · rw [(setChecked_key d i c y).1]; exact ((sameKey_iff d i y).mp hk).1
        · rw [(setChecked_key d i c y).2]; exact ((sameKey_iff d i y).mp hk).2
    | [], _, hz => exact absurd hz (List.not_mem_nil _)
    | _ :: _ :: _, hlen, _ => simp at hlen
  · rw [if_neg hany]
    have hnil := filter_sameKey_eq_nil d i rows (by simpa using hany)
    refine ⟨⟨next, d, i, c⟩, ?_, rfl, rfl, rfl⟩
    simp [List.filter_append, hnil, List.filter_cons, sameKey]

/-- The upsert keeps the (date, item) keys of the table distinct. -/
theorem nodup_keys_upsertRows (rows : List Checklist) (next : Int) (d i : String) (c : Bool)
    (h : (rows.map (fun x => (x.Date, x.Item))).Nodup) :
    ((upsertRows rows next d i c).map (fun x => (x.Date, x.Item))).Nodup := by
  unfold upsertRows
  by_cases hany : rows.any (sameKey d i) = true
  · rw [if_pos hany, List.map_map]
    have : ((fun x : Checklist => (x.Date, x.Item)) ∘ setChecked d i c) =
        (fun x : Checklist => (x.Date, x.Item)) := by
      funext x
      simp [(setChecked_key d i c x).1, (setChecked_key d i c x).2]
    rw [this]
    exact h
  · rw [if_neg hany, List.map_append]
    refine List.Nodup.append h (by simp) ?_
    intro k hk hk'
    simp only [List.map_cons, List.map_nil, List.mem_singleton] at hk'
    obtain ⟨x, hx, hxk⟩ := List.mem_map.mp hk
    apply hany
    refine List.any_eq_true.mpr ⟨x, hx, (sameKey_iff d i x).mpr ?_⟩
    rw [hk'] at hxk
    simpa using hxk

theorem filter_sameKey_length_le_one (d i : String) (rows : List Checklist)
    (h : (rows.map (fun x => (x.Date, x.Item))).Nodup) :
    (rows.filter (sameKey d i)).length ≤ 1 := by
  induction rows with
  | nil => simp
  | cons x l ih =>
      rw [List.map_cons, List.nodup_cons] at h
      by_cases hx : sameKey d i x = true
      · have hnil : l.filter (sameKey d i) = [] := by
          rw [List.filter_eq_nil_iff]
          intro y hy hk
          apply h.1
          have hxk := (sameKey_iff d i x).mp hx
          have hyk := (sameKey_iff d i y).mp hk
          exact List.mem_map.mpr ⟨y, hy, by simp [hxk.1, hxk.2, hyk.1, hyk.2]⟩
        simp [List.filter_cons, hx, hnil]
      · simpa [List.filter_cons, hx] using ih h.2

/-- Repeating the upsert of the same (d, i, c) changes nothing more. -/
theorem upsertRows_idem (rows : List Checklist) (next next' : Int) (d i : String) (c : Bool) :
    upsertRows (upsertRows rows next d i c) next' d i c = upsertRows rows next d i c := by
  have hall : ∀ x ∈ upsertRows rows next d i c, sameKey d i x = true → x.Checked = c := by
    intro x hx hk
    unfold upsertRows at hx
    by_cases hany : rows.any (sameKey d i) = true
    · rw [if_pos hany] at hx
      obtain ⟨y, _, rfl⟩ := List.mem_map.mp hx
      rw [sameKey_setChecked] at hk
      simp [setChecked, hk]
    · rw [if_neg hany] at hx
      rcases List.mem_append.mp hx with hx | hx
      · exact absurd (List.any_eq_true.mpr ⟨x, hx, hk⟩) hany
      · simp only [List.mem_singleton] at hx
        rw [hx]
  have hany' : (upsertRows rows next d i c).any (sameKey d i) = true := by
    unfold upsertRows
    by_cases hany : rows.any (sameKey d i) = true
    · rw [if_pos hany]
      obtain ⟨y, hy, hk⟩ := List.any_eq_true.mp hany
      exact List.any_eq_true.mpr
        ⟨setChecked d i c y, List.mem_map.mpr ⟨y, hy, rfl⟩, by rw [sameKey_setChecked]; exact hk⟩
    · rw [if_neg hany]
      exact List.any_eq_true.mpr ⟨⟨next, d, i, c⟩, by simp, by simp [sameKey]⟩
  generalize upsertRows rows next d i c = T at hall hany'
  unfold upsertRows
  rw [if_pos hany']
  conv_rhs => rw [← List.map_id T]
  exact List.map_congr_left (fun x hx => setChecked_of_checked d i c x (hall x hx))

theorem encodeSlice_sliceOf_of_mem {α : Type} (l : List α) (a : α) (h : a ∈ l) :
    encodeSlice (sliceOf l) = Body.list l := by
  cases l with
  | nil => exact absurd h (List.not_mem_nil _)
  | cons b l => rfl

theorem filter_item_filter_date (d i : String) (rows : List Checklist) :
    (rows.filter (fun x => x.Date = d)).filter (fun y => y.Item = i) =
      rows.filter (sameKey d i) := by
  rw [List.filter_filter]
  apply List.filter_congr
  intro x _
  simp [sameKey, Bool.and_comm]

/-- C2: on a store that satisfies the (date, item) uniqueness constraint, after
two POST /checklist requests of the same day for the same item, with checked
c1 and then c2, whose upserts do not fail, GET /checklist of that day answers
200 with an array that has exactly one row for the item, dated that day, with
checked equal to c2; the constraint still holds; and when c2 = c1 the GET
response after the second POST is the one after the first. -/
theorem checklist_upsert_idempotent (today : String) (f1 f2 : Option Fault) (db db1 db2 : DB)
    (r1 r2 g : Request Checklist) (b1 b2 : Checklist) (hu : db.UniqueKeys)
    (h1m : r1.method = "POST") (h1b : r1.body = Except.ok b1) (h1f : callErr f1 = none)
    (h1 : (checklistHandler ⟨today, f1⟩ db r1).2 = db1)
    (h2m : r2.method = "POST") (h2b : r2.body = Except.ok b2) (h2f : callErr f2 = none)
    (h2 : (checklistHandler ⟨today, f2⟩ db1 r2).2 = db2)
    (hitem : b2.Item = b1.Item) (hg : g.method = "GET") :
    (∃ l x, (checklistHandler ⟨today, none⟩ db2 g).1 = ⟨200, Body.list l⟩ ∧
      l.filter (fun y => y.Item = b1.Item) = [x] ∧
      x.Checked = b2.Checked ∧ x.Date = today ∧ ∀ y ∈ l, y.Date = today) ∧
    db2.UniqueKeys ∧
    (b2.Checked = b1.Checked →
      (checklistHandler ⟨today, none⟩ db2 g).1 = (checklistHandler ⟨today, none⟩ db1 g).1) := by
  have hT1 : db1.checklist = upsertRows db.checklist db.checklistNext today b1.Item b1.Checked := by
    rw [← h1]
    exact checklistHandler_post_rows ⟨today, f1⟩ db r1 b1 h1m h1b h1f
  have hT2 : db2.checklist =
      upsertRows db1.checklist db1.checklistNext today b1.Item b2.Checked := by
    rw [← h2, ← hitem]
    exact checklistHandler_post_rows ⟨today, f2⟩ db1 r2 b2 h2m h2b h2f
  have hu1 : db1.UniqueKeys := by
    unfold DB.UniqueKeys
    rw [hT1]
    exact nodup_keys_upsertRows _ _ _ _ _ hu
  have hu2 : db2.UniqueKeys := by
    unfold DB.UniqueKeys
    rw [hT2]
    exact nodup_keys_upsertRows _ _ _ _ _ hu1
  refine ⟨?_, hu2, ?_⟩
  · obtain ⟨x, hx, hc, hd, hi⟩ := filter_upsertRows db1.checklist db1.checklistNext today
      b1.Item b2.Checked (filter_sameKey_length_le_one today b1.Item db1.checklist hu1)
    rw [← hT2] at hx
    have hxmem : x ∈ db2.checklist.filter (fun y => y.Date = today) := by
      have : x ∈ db2.checklist.filter (sameKey today b1.Item) := by rw [hx]; simp
      exact List.mem_filter.mpr ⟨(List.mem_filter.mp this).1, by simp [hd]⟩
    refine ⟨db2.checklist.filter (fun y => y.Date = today), x, ?_, ?_, hc, hd, ?_⟩
    · rw [checklistHandler_get ⟨today, none⟩ db2 g hg]
      simp only [getResponse]
      rw [encodeSlice_sliceOf_of_mem _ x hxmem]
    · rw [filter_item_filter_date, hx]
    · intro y hy
      simpa using (List.mem_filter.mp hy).2
  · intro hcc
    rw [checklistHandler_get ⟨today, none⟩ db2 g hg, checklistHandler_get ⟨today, none⟩ db1 g hg]
    have : db2.checklist = db1.checklist := by
      rw [hT2, hT1, hcc]
      exact upsertRows_idem _ _ _ _ _ _
    simp only [this]

theorem checklist_upsert_idempotent_witness :
    ∃ l x, (checklistHandler ⟨"2024-05-02", none⟩
        ⟨[], 1, [⟨1, "2024-05-01", "egg", true⟩, ⟨2, "2024-05-02", "egg", false⟩], 3⟩
        ⟨"GET", Except.error "EOF", []⟩).1 =
        ⟨200, Body.list l⟩ ∧
      l.filter (fun y => y.Item = "egg") = [x] ∧
      x.Checked = false ∧ x.Date = "2024-05-02" ∧ ∀ y ∈ l, y.Date = "2024-05-02" :=
  (checklist_upsert_idempotent "2024-05-02" none none
    ⟨[], 1, [⟨1, "2024-05-01", "egg", true⟩], 2⟩
    ⟨[], 1, [⟨1, "2024-05-01", "egg", true⟩, ⟨2, "2024-05-02", "egg", true⟩], 3⟩
    ⟨[], 1, [⟨1, "2024-05-01", "egg", true⟩, ⟨2, "2024-05-02", "egg", false⟩], 3⟩
    ⟨"POST", Except.ok ⟨0, "", "egg", true⟩, []⟩
    ⟨"POST", Except.ok ⟨0, "", "egg", false⟩, []⟩
    ⟨"GET", Except.error "EOF", []⟩ ⟨0, "", "egg", true⟩ ⟨0, "", "egg", false⟩
    (by decide) rfl rfl rfl (by decide) rfl rfl rfl (by decide) rfl rfl).1

/-! ## Runs of requests -/

theorem weightsHandler_weightsNext (env : Env) (db : DB) (r : Request Weight) :
    (weightsHandler env db r).2.weightsNext = db.weightsNext ∨
    (r.method = "POST" ∧
      (weightsHandler env db r).2.weightsNext = db.weightsNext + 1 ∧
      ∃ e, (weightsHandler env db r).1.body = Body.entity e ∧ e.ID = db.weightsNext) := by
  by_cases hget : r.method = "GET"
  · rw [weightsHandler_get env db r hget]; exact Or.inl rfl
  by_cases hpost : r.method = "POST"
  · cases hb : r.body with
    | error e => rw [weightsHandler_post_decode env db r e hpost hb]; exact Or.inl rfl
    | ok wt =>
        cases hf : callErr env.fault with
        | some e => rw [weightsHandler_post_fail env db r wt e hpost hb hf]; exact Or.inl rfl
        | none =>
            rw [weightsHandler_post env db r wt hpost hb hf]
            exact Or.inr ⟨hpost, rfl, _, rfl, rfl⟩
  by_cases hdel : r.method = "DELETE"
  · by_cases hq : queryGet r.query "id" = ""
    · rw [weightsHandler_delete_missing env db r hdel hq]; exact Or.inl rfl
    · cases hf : callErr env.fault with
      | some e => rw [weightsHandler_delete_fail env db r e hdel hq hf]; exact Or.inl rfl
      | none => rw [weightsHandler_delete env db r hdel hq hf]; exact Or.inl rfl
  · rw [weightsHandler_other env db r hget hpost hdel]; exact Or.inl rfl

theorem weightsHandler_entity_post (env : Env) (db : DB) (r : Request Weight) (e : Weight)
    (hm : r.method = "POST") (h : (weightsHandler env db r).1.body = Body.entity e) :
    e.ID = db.weightsNext ∧ (weightsHandler env db r).2.weightsNext = db.weightsNext + 1 := by
  cases hb : r.body with
  | error e' => rw [weightsHandler_post_decode env db r e' hm hb] at h; cases h
  | ok wt =>
      cases hf : callErr env.fault with
      | some e' => rw [weightsHandler_post_fail env db r wt e' hm hb hf] at h; cases h
      | none =>
          rw [weightsHandler_post env db r wt hm hb hf] at h ⊢
          simp only [Body.entity.injEq] at h
          exact ⟨by rw [← h], rfl⟩

theorem checklistHandler_weightsNext (env : Env) (db : DB) (r : Request Checklist) :
    (checklistHandler env db r).2.weightsNext = db.weightsNext := by
  by_cases hget : r.method = "GET"
  · rw [checklistHandler_get env db r hget]
  by_cases hpost : r.method = "POST"
  · cases hb : r.body with
    | error e => rw [checklistHandler_post_decode env db r e hpost hb]
    | ok c =>
        cases hf : callErr env.fault with
        | some e => rw [checklistHandler_post_fail env db r c e hpost hb hf]
        | none =>
            rw [checklistHandler_post env db r c hpost hb hf]
            split_ifs <;> rfl
  by_cases hdel : r.method = "DELETE"
  · by_cases hq : queryGet r.query "item" = ""
    · rw [checklistHandler_delete_missing env db r hdel hq]
    · cases hf : callErr env.fault with
      | some e => rw [checklistHandler_delete_fail env db r e hdel hq hf]
      | none => rw [checklistHandler_delete env db r hdel hq hf]
  · rw [checklistHandler_other env db r hget hpost hdel]

theorem serve_weightsNext_le (db : DB) (c : Call) : db.weightsNext ≤ (serve db c).weightsNext := by
  cases c with
  | weights env r =>
      rcases weightsHandler_weightsNext env db r with h | ⟨_, h, _⟩
      · exact le_of_eq h.symm
      · simp only [serve, h]; omega
  | checklist env r => exact le_of_eq (checklistHandler_weightsNext env db r).symm

theorem issuedId_bounds (db : DB) (c : Call) (i : Int) (h : issuedId db c = some i) :
    db.weightsNext ≤ i ∧ i < (serve db c).weightsNext := by
  cases c with
  | checklist env r => simp [issuedId] at h
  | weights env r =>
      by_cases hm : r.method = "POST"
      · simp only [issuedId, hm, if_true] at h
        cases hbody : (weightsHandler env db r).1.body with
        | entity e =>
            rw [hbody] at h
            simp only [Option.some.injEq] at h
            obtain ⟨hid, hnext⟩ := weightsHandler_entity_post env db r e hm hbody
            simp only [serve, hnext]
            omega
        | empty => rw [hbody] at h; cases h
        | text m => rw [hbody] at h; cases h
        | null => rw [hbody] at h; cases h
        | list l => rw [hbody] at h; cases h
        | message m => rw [hbody] at h; cases h
      · simp [issuedId, hm] at h

/-- Every id returned during a run lies between the counter before the run and
the counter after it. -/
theorem issuedIds_bounds (db : DB) (calls : List Call) :
    db.weightsNext ≤ (run db calls).weightsNext ∧
    ∀ i ∈ issuedIds db calls, db.weightsNext ≤ i ∧ i < (run db calls).weightsNext := by
  induction calls generalizing db with
  | nil => exact ⟨le_refl _, fun i hi => absurd hi (List.not_mem_nil _)⟩
  | cons c cs ih =>
      obtain ⟨hle, hall⟩ := ih (serve db c)
      have hstep := serve_weightsNext_le db c
      refine ⟨le_trans hstep hle, ?_⟩
      intro i hi
      simp only [issuedIds, List.mem_append, Option.mem_toList, Option.mem_def] at hi
      rcases hi with hi | hi
      · obtain ⟨h1, h2⟩ := issuedId_bounds db c i hi
        exact ⟨h1, lt_of_lt_of_le h2 hle⟩
      · obtain ⟨h1, h2⟩ := hall i hi
        exact ⟨le_trans hstep h1, h2⟩

/-! ## POST /weights -/

/-- C4: after any run of requests from a store whose weights counter is
positive, a POST /weights whose body decodes and whose insert does not fail is
answered 201 with an entity that has the value of the body, the date of the
body when that is not empty and the current date otherwise, and as id the id
the store generated for the inserted row: a positive integer that no earlier
POST /weights of the run returned, and that does not depend on the id of the
body. -/
theorem weights_post_contract (env : Env) (db0 : DB) (calls : List Call) (r : Request Weight)
    (wt : Weight) (h0 : 0 < db0.weightsNext) (hm : r.method = "POST")
    (hb : r.body = Except.ok wt) (hf : callErr env.fault = none) :
    ∃ e, (weightsHandler env (run db0 calls) r).1 = ⟨201, Body.entity e⟩ ∧
      e.Value = wt.Value ∧
      (wt.Date ≠ "" → e.Date = wt.Date) ∧ (wt.Date = "" → e.Date = env.today) ∧
      (weightsHandler env (run db0 calls) r).2.weights = (run db0 calls).weights ++ [e] ∧
      e.ID = (run db0 calls).weightsNext ∧
      0 < e.ID ∧ e.ID ∉ issuedIds db0 calls ∧
      ∀ (r' : Request Weight) (id' : Int), r'.method = "POST" →
        r'.body = Except.ok { wt with ID := id' } →
        (weightsHandler env (run db0 calls) r').1 = ⟨201, Body.entity e⟩ := by
  obtain ⟨hle, hall⟩ := issuedIds_bounds db0 calls
  rw [weightsHandler_post env (run db0 calls) r wt hm hb hf]
  refine ⟨_, rfl, rfl, ?_, ?_, rfl, rfl, lt_of_lt_of_le h0 hle, ?_, ?_⟩
  · intro hd; simp [hd]
  · intro hd; simp [hd]
  · intro hmem
    exact absurd (hall _ hmem).2 (lt_irrefl _)
  · intro r' id' hm' hb'
    rw [weightsHandler_post env (run db0 calls) r' _ hm' hb' hf]

theorem weights_post_contract_witness :
    ∃ e, (weightsHandler ⟨"2024-05-02", none⟩
        (run ⟨[], 1, [], 1⟩
          [Call.weights ⟨"2024-05-01", none⟩ ⟨"POST", Except.ok ⟨0, "", ⟨7⟩⟩, []⟩,
            Call.weights ⟨"2024-05-01", none⟩ ⟨"DELETE", Except.error "EOF", [("id", "1")]⟩])
        ⟨"POST", Except.ok ⟨1, "2024-01-01", ⟨9⟩⟩, []⟩).1 = ⟨201, Body.entity e⟩ ∧
      e.ID = 2 ∧ e.Date = "2024-01-01" ∧ e.Value = ⟨9⟩ ∧
      e.ID ∉ issuedIds ⟨[], 1, [], 1⟩
        [Call.weights ⟨"2024-05-01", none⟩ ⟨"POST", Except.ok ⟨0, "", ⟨7⟩⟩, []⟩,
          Call.weights ⟨"2024-05-01", none⟩ ⟨"DELETE", Except.error "EOF", [("id", "1")]⟩] ∧
      issuedIds ⟨[], 1, [], 1⟩
        [Call.weights ⟨"2024-05-01", none⟩ ⟨"POST", Except.ok ⟨0, "", ⟨7⟩⟩, []⟩,
          Call.weights ⟨"2024-05-01", none⟩ ⟨"DELETE", Except.error "EOF", [("id", "1")]⟩] =
        [1] :=
  (weights_post_contract ⟨"2024-05-02", none⟩ ⟨[], 1, [], 1⟩
    [Call.weights ⟨"2024-05-01", none⟩ ⟨"POST", Except.ok ⟨0, "", ⟨7⟩⟩, []⟩,
      Call.weights ⟨"2024-05-01", none⟩ ⟨"DELETE", Except.error "EOF", [("id", "1")]⟩]
    ⟨"POST", Except.ok ⟨1, "2024-01-01", ⟨9⟩⟩, []⟩ ⟨1, "2024-01-01", ⟨9⟩⟩
    (by decide) rfl rfl rfl).elim
    (fun e h => ⟨e, h.1, h.2.2.2.2.2.1.trans (by decide), h.2.2.1 (by decide), h.2.1,
      h.2.2.2.2.2.2.2.1, by decide⟩)

/-! ## Weights round trip -/

/-- C1: when a POST /weights decodes and its insert does not fail, a GET
/weights served next by a store that does not fail answers 200 with an array
that contains the entity the POST returned (same id, date and value); the array
is ordered by date ascending and consists of the rows stored before plus that
entity, so the entity sits where its date puts it; when the stored ids are
below the counter, it is the only entry with its id. -/
theorem weights_round_trip (envP : Env) (today : String) (db : DB) (r g : Request Weight)
    (wt : Weight) (hm : r.method = "POST") (hb : r.body = Except.ok wt)
    (hf : callErr envP.fault = none) (hg : g.method = "GET") :
    ∃ e l, (weightsHandler envP db r).1 = ⟨201, Body.entity e⟩ ∧
      weightsHandler ⟨today, none⟩ (weightsHandler envP db r).2 g =
        (⟨200, Body.list l⟩, (weightsHandler envP db r).2) ∧
      e ∈ l ∧ l.Sorted dateLE ∧ l.Perm (db.weights ++ [e]) ∧
      ((∀ w ∈ db.weights, w.ID < db.weightsNext) →
        l.filter (fun w => w.ID = e.ID) = [e]) := by
  rw [weightsHandler_post envP db r wt hm hb hf]
  refine ⟨_, (db.weights ++
    [(⟨db.weightsNext, if wt.Date = "" then envP.today else wt.Date, wt.Value⟩ :
      Weight)]).insertionSort dateLE, rfl, ?_, ?_, List.sorted_insertionSort dateLE _, List.perm_insertionSort dateLE _, ?_⟩
  · rw [weightsHandler_get ⟨today, none⟩ _ g hg]
    simp only [getResponse]
    rw [encodeSlice_sliceOf_of_mem _
      ⟨db.weightsNext, if wt.Date = "" then envP.today else wt.Date, wt.Value⟩
      ((List.perm_insertionSort dateLE _).mem_iff.mpr (by simp))]
  · exact (List.perm_insertionSort dateLE _).mem_iff.mpr (by simp)
  · intro hwf
    have hperm := (List.perm_insertionSort dateLE (db.weights ++
      [⟨db.weightsNext, if wt.Date = "" then envP.today else wt.Date, wt.Value⟩])).filter
        (fun w => decide (w.ID = db.weightsNext))
    have hold : db.weights.filter (fun w => decide (w.ID = db.weightsNext)) = [] := by
      rw [List.filter_eq_nil_iff]
      intro w hw hid
      have := hwf w hw
      simp only [decide_eq_true_eq] at hid
      omega
    rw [List.filter_append, hold] at hperm
    simp only [List.filter_cons, decide_True, if_true, List.filter_nil, List.nil_append] at hperm
    exact List.perm_singleton.mp hperm

theorem weights_round_trip_witness :
    ∃ e l, (weightsHandler ⟨"2024-05-02", none⟩
          ⟨[⟨1, "2024-02-01", ⟨5⟩⟩, ⟨2, "2023-12-01", ⟨6⟩⟩], 3, [], 1⟩
          ⟨"POST", Except.ok ⟨0, "2024-01-01", ⟨9⟩⟩, []⟩).1 = ⟨201, Body.entity e⟩ ∧
      weightsHandler ⟨"2024-05-03", none⟩
          (weightsHandler ⟨"2024-05-02", none⟩
            ⟨[⟨1, "2024-02-01", ⟨5⟩⟩, ⟨2, "2023-12-01", ⟨6⟩⟩], 3, [], 1⟩
            ⟨"POST", Except.ok ⟨0, "2024-01-01", ⟨9⟩⟩, []⟩).2
          ⟨"GET", Except.error "EOF", []⟩ =
        (⟨200, Body.list l⟩,
          (weightsHandler ⟨"2024-05-02", none⟩
            ⟨[⟨1, "2024-02-01", ⟨5⟩⟩, ⟨2, "2023-12-01", ⟨6⟩⟩], 3, [], 1⟩
            ⟨"POST", Except.ok ⟨0, "2024-01-01", ⟨9⟩⟩, []⟩).2) ∧
      e ∈ l ∧ l.Sorted dateLE ∧
      l.Perm (([⟨1, "2024-02-01", ⟨5⟩⟩, ⟨2, "2023-12-01", ⟨6⟩⟩] : List Weight) ++ [e]) :=
  match weights_round_trip ⟨"2024-05-02", none⟩ "2024-05-03"
    ⟨[⟨1, "2024-02-01", ⟨5⟩⟩, ⟨2, "2023-12-01", ⟨6⟩⟩], 3, [], 1⟩
    ⟨"POST", Except.ok ⟨0, "2024-01-01", ⟨9⟩⟩, []⟩ ⟨"GET", Except.error "EOF", []⟩
    ⟨0, "2024-01-01", ⟨9⟩⟩ rfl rfl rfl rfl with
  | ⟨e, l, h1, h2, h3, h4, h5, _⟩ => ⟨e, l, h1, h2, h3, h4, h5⟩

end Bmi
